import Mathlib

/-! Markdown builder.

A shallow embedding of `markdown.go` and `internal/linefeed.go`, followed by
the properties of the document-assembly model: how blocks are appended and
how they are joined into the final text.

Conventions of the embedding.

* A Go `string` is a Lean `String` (written `Str`, because the methods named
  `String` of the source live in the namespaces of their receivers).
* A Go slice is a `List`; `append(s, x)` is `s ++ [x]`.
* A method with a pointer receiver takes the receiver's state and returns the
  state after the call. The append methods return the receiver itself in Go,
  so their embedding returns just that state; `String` and `Build` return
  their Go result paired with the receiver's state after the call.
* `runtime.GOOS` is a constant of the Go runtime; it is a parameter `GOOS`
  of every function that reads it (through `LineFeed`).
* `fmt.Sprintf` with `%s` verbs is string concatenation; `%d` of a
  non-negative `int` is the decimal numeral `Nat.repr`.
-/

namespace markdown

/-- Go `string`. -/
abbrev Str := String

/-! ## Library functions used by the source -/

/-- Go `strings.Join(elems, sep)`: the empty string for no element, the
element itself for one, otherwise the first element followed by, for every
further element, the separator and that element. -/
def Join : List Str → Str → Str
  | [], _ => ""
  | [e], _ => e
  | e :: rest, sep => rest.foldl (fun b s => b ++ sep ++ s) e

/-- Go `strings.Repeat(s, count)` for a non-negative count: `count` copies
of `s`. (A negative count panics in Go; the source only passes the literals
1..6 and a slice length.) -/
def Repeat (s : Str) : Nat → Str
  | 0 => ""
  | n + 1 => Repeat s n ++ s

/-- Go `error` value, as far as the source observes it: the text returned by
its `Error()` method, and the cause kept by `fmt.Errorf` for a `%w` verb
(what `errors.Unwrap` returns). An error formatted with `%v` or `%s` only
contributes its text. -/
inductive GoError where
  | leaf (msg : Str) : GoError
  | wrap (msg : Str) (cause : GoError) : GoError
deriving DecidableEq, Repr

/-- The `Error()` method of an error value. -/
def GoError.Error : GoError → Str
  | .leaf msg => msg
  | .wrap msg _ => msg

/-- Go `errors.Unwrap`. -/
def GoError.Unwrap : GoError → Option GoError
  | .leaf _ => none
  | .wrap _ cause => some cause

/-- An `io.Writer`: the payloads its `Write` method has been called with so
far, and the error `Write` returns (`none`: the write succeeds). -/
structure Writer where
  calls : List Str
  fail : Option GoError
deriving DecidableEq, Repr

/-- Go `fmt.Fprint(w, s)` for one string operand: one call `w.Write(s)`,
returning the error of that call. -/
def Fprint (w : Writer) (s : Str) : Option GoError × Writer :=
  (w.fail, { w with calls := w.calls ++ [s] })

/-! ## `internal/linefeed.go` -/

/-- Source `internal.LineFeed`. -/
def LineFeed (GOOS : Str) : Str :=
  if GOOS = "windows" then "\r\n" else "\n"

/-! ## `markdown.go` -/

/-- Source `type Markdown struct`. -/
structure Markdown where
  body : List Str
  dest : Writer
  err : Option GoError
deriving DecidableEq, Repr

/-- Source `NewMarkdown`: `err` is left at its zero value `nil`. -/
def NewMarkdown (w : Writer) : Markdown :=
  { body := [], dest := w, err := none }

/-- Source `(*Markdown).Error`. -/
def Markdown.Error (m : Markdown) : Option GoError × Markdown :=
  (m.err, m)

/-- Source `(*Markdown).String`: the text, and the receiver after the call. -/
def Markdown.String (m : Markdown) (GOOS : Str) : Str × Markdown :=
  (Join m.body (LineFeed GOOS), m)

/-- Source `(*Markdown).Build`: the returned error, and the receiver after
the call (its `dest` has received the write). -/
def Markdown.Build (m : Markdown) (GOOS : Str) : Option GoError × Markdown :=
  let (text, m) := m.String GOOS
  let (werr, d) := Fprint m.dest text
  let m := { m with dest := d }
  match werr with
  | some err =>
    match m.err with
    | some e =>
      (some (.wrap ("failed to write markdown text: " ++ err.Error ++ ": " ++ e.Error) err), m)
    | none => (some (.leaf ("failed to write markdown text: " ++ err.Error)), m)
  | none => (m.err, m)

/-- Source `(*Markdown).Paragraph`. -/
def Markdown.Paragraph (m : Markdown) (text : Str) : Markdown :=
  { m with body := m.body ++ [text] }

/-- Source `(*Markdown).header`; `size` is only ever one of the literals
1..6, so it is a natural number here. -/
def Markdown.header (m : Markdown) (text : Str) (size : Nat) : Markdown :=
  let sizeString := Repeat "#" size
  { m with body := m.body ++ [sizeString ++ " " ++ text] }

/-- Source `(*Markdown).H1`. -/
def Markdown.H1 (m : Markdown) (text : Str) : Markdown := m.header text 1

/-- Source `(*Markdown).H2`. -/
def Markdown.H2 (m : Markdown) (text : Str) : Markdown := m.header text 2

/-- Source `(*Markdown).H3`. -/
def Markdown.H3 (m : Markdown) (text : Str) : Markdown := m.header text 3

/-- Source `(*Markdown).H4`. -/
def Markdown.H4 (m : Markdown) (text : Str) : Markdown := m.header text 4

/-- Source `(*Markdown).H5`. -/
def Markdown.H5 (m : Markdown) (text : Str) : Markdown := m.header text 5

/-- Source `(*Markdown).H6`. -/
def Markdown.H6 (m : Markdown) (text : Str) : Markdown := m.header text 6

/-- Source `(*Markdown).BulletList`: the loop over the variadic `text`
appends one block per item. -/
def Markdown.BulletList (m : Markdown) (text : List Str) : Markdown :=
  text.foldl (fun m v => { m with body := m.body ++ ["- " ++ v] }) m

/-- Source `(*Markdown).OrderedList`: the loop ranges over index `i` and
item `v`, formatting `i+1` with `%d`. -/
def Markdown.OrderedList (m : Markdown) (text : List Str) : Markdown :=
  text.enum.foldl
    (fun m iv => { m with body := m.body ++ [Nat.repr (iv.1 + 1) ++ ". " ++ iv.2] }) m

/-- Source `(*Markdown).Blockquote`. -/
def Markdown.Blockquote (m : Markdown) (text : Str) : Markdown :=
  { m with body := m.body ++ ["> " ++ text] }

/-- Source `(*Markdown).CodeBlock`. -/
def Markdown.CodeBlock (m : Markdown) (GOOS : Str) (text : Str) (lang : Str) : Markdown :=
  { m with body := m.body ++ ["```" ++ lang ++ LineFeed GOOS ++ text ++ LineFeed GOOS ++ "```"] }

/-- Source `(*Markdown).Rule`. -/
def Markdown.Rule (m : Markdown) : Markdown :=
  { m with body := m.body ++ ["---"] }

/-- Source `type TableSet struct`. -/
structure TableSet where
  header : List Str
  rows : List (List Str)
deriving DecidableEq, Repr

/-- Source `(*TableSet).String`. -/
def TableSet.String (t : TableSet) (GOOS : Str) : Str :=
  let result : List Str := []
  let result := result ++ ["| " ++ Join t.header " | " ++ " |"]
  let result := result ++ ["|" ++ Repeat "---|" t.header.length]
  let result := t.rows.foldl (fun result row => result ++ ["| " ++ Join row " | " ++ " |"]) result
  Join result (LineFeed GOOS)

/-- Source `(*Markdown).Table`. -/
def Markdown.Table (m : Markdown) (GOOS : Str) (t : TableSet) : Markdown :=
  { m with body := m.body ++ [t.String GOOS] }

/-- Source `type TaskListSet struct`. -/
structure TaskListSet where
  Checked : Bool
  Text : Str
deriving DecidableEq, Repr

/-- Source `(*Markdown).TaskList`. -/
def Markdown.TaskList (m : Markdown) (set : List TaskListSet) : Markdown :=
  set.foldl
    (fun m v =>
      if v.Checked then { m with body := m.body ++ ["- [x] " ++ v.Text] }
      else { m with body := m.body ++ ["- [ ] " ++ v.Text] }) m

/-- Modelled from the spec: the method `LF` of `*Markdown` (the line-break
operation), which `TestMarkdownLF` calls and no source file defines. The spec:
"Append line break(): appends a Block consisting of two trailing spaces (the
Markdown hard-line-break idiom) as its own standalone entry." -/
def Markdown.LF (m : Markdown) : Markdown :=
  { m with body := m.body ++ ["  "] }

/-- Source `Link`. -/
def Link (text url : Str) : Str := "[" ++ text ++ "](" ++ url ++ ")"

/-- Source `URL`. -/
def URL (url : Str) : Str := "<" ++ url ++ ">"

/-- Source `Image`. -/
def Image (alt url : Str) : Str := "![" ++ alt ++ "](" ++ url ++ ")"

/-- Source `Bold`. -/
def Bold (text : Str) : Str := "**" ++ text ++ "**"

/-- Source `Italic`. -/
def Italic (text : Str) : Str := "*" ++ text ++ "*"

/-- Source `BoldItalic`. -/
def BoldItalic (text : Str) : Str := "***" ++ text ++ "***"

/-- Source `Code`. -/
def Code (text : Str) : Str := "`" ++ text ++ "`"

/-- Source `Highlight`. -/
def Highlight (text : Str) : Str := "==" ++ text ++ "=="

/-- Source `Strikethrough`. -/
def Strikethrough (text : Str) : Str := "~~" ++ text ++ "~~"

/-- Source `Subscript`. -/
def Subscript (text : Str) : Str := "~" ++ text ++ "~"

/-- Source `Superscript`. -/
def Superscript (text : Str) : Str := "^" ++ text ++ "^"

/-- Source `Emoji`. -/
def Emoji (shortcode : Str) : Str := ":" ++ shortcode ++ ":"

/-! ## Sequences of append operations -/

/-- One call of an append method of the source, with its arguments. -/
inductive Op where
  | Paragraph (text : Str) : Op
  | H1 (text : Str) : Op
  | H2 (text : Str) : Op
  | H3 (text : Str) : Op
  | H4 (text : Str) : Op
  | H5 (text : Str) : Op
  | H6 (text : Str) : Op
  | BulletList (text : List Str) : Op
  | OrderedList (text : List Str) : Op
  | Blockquote (text : Str) : Op
  | CodeBlock (text : Str) (lang : Str) : Op
  | Rule : Op
  | Table (t : TableSet) : Op
  | TaskList (set : List TaskListSet) : Op
deriving DecidableEq, Repr

/-- The receiver after one append call. -/
def Markdown.apply (GOOS : Str) (m : Markdown) : Op → Markdown
  | .Paragraph text => m.Paragraph text
  | .H1 text => m.H1 text
  | .H2 text => m.H2 text
  | .H3 text => m.H3 text
  | .H4 text => m.H4 text
  | .H5 text => m.H5 text
  | .H6 text => m.H6 text
  | .BulletList text => m.BulletList text
  | .OrderedList text => m.OrderedList text
  | .Blockquote text => m.Blockquote text
  | .CodeBlock text lang => m.CodeBlock GOOS text lang
  | .Rule => m.Rule
  | .Table t => m.Table GOOS t
  | .TaskList set => m.TaskList set

/-- The receiver after a sequence of append calls, in call order. -/
def Markdown.run (GOOS : Str) (m : Markdown) (ops : List Op) : Markdown :=
  ops.foldl (Markdown.apply GOOS) m

/-- The blocks one append call adds behind the blocks of the receiver: the
loops of the list operations in closed form (`apply_eq_blocks` relates it to
the methods). -/
def Op.blocks (GOOS : Str) : Op → List Str
  | .Paragraph text => [text]
  | .H1 text => [Repeat "#" 1 ++ " " ++ text]
  | .H2 text => [Repeat "#" 2 ++ " " ++ text]
  | .H3 text => [Repeat "#" 3 ++ " " ++ text]
  | .H4 text => [Repeat "#" 4 ++ " " ++ text]
  | .H5 text => [Repeat "#" 5 ++ " " ++ text]
  | .H6 text => [Repeat "#" 6 ++ " " ++ text]
  | .BulletList text => text.map (fun v => "- " ++ v)
  | .OrderedList text => text.enum.map (fun iv => Nat.repr (iv.1 + 1) ++ ". " ++ iv.2)
  | .Blockquote text => ["> " ++ text]
  | .CodeBlock text lang =>
    ["```" ++ lang ++ LineFeed GOOS ++ text ++ LineFeed GOOS ++ "```"]
  | .Rule => ["---"]
  | .Table t => [t.String GOOS]
  | .TaskList set =>
    set.map (fun v => if v.Checked then "- [x] " ++ v.Text else "- [ ] " ++ v.Text)

/-- One call of a public method of `*Markdown`: an append method, `String`,
`Build` or `Error`. -/
inductive Call where
  | append (op : Op) : Call
  | String : Call
  | Build : Call
  | Error : Call
deriving DecidableEq

/-- The receiver after one call of a public method. -/
def Markdown.step (GOOS : Str) (m : Markdown) : Call → Markdown
  | .append op => m.apply GOOS op
  | .String => (m.String GOOS).2
  | .Build => (m.Build GOOS).2
  | .Error => m.Error.2

/-- The receiver after a sequence of calls of public methods, in call order. -/
def Markdown.exec (GOOS : Str) (m : Markdown) (calls : List Call) : Markdown :=
  calls.foldl (Markdown.step GOOS) m

/-! ## Sample sinks and documents -/

/-- A sink that has received nothing and whose write succeeds. -/
def sinkOk : Writer := { calls := [], fail := none }

/-- A sink that has received nothing and whose write fails with "disk full". -/
def sinkFailing : Writer := { calls := [], fail := some (.leaf "disk full") }

/-- A document of one block with no internal error and a failing sink. -/
def docFailing : Markdown := { body := ["x"], dest := sinkFailing, err := none }

/-- A document of one block carrying the internal error "bad input", with a
failing sink. -/
def docErrFailing : Markdown :=
  { body := ["x"], dest := sinkFailing, err := some (.leaf "bad input") }

/-- A document of one block carrying the internal error "bad input", with a
sink whose write succeeds. -/
def docErrOk : Markdown :=
  { body := ["x"], dest := sinkOk, err := some (.leaf "bad input") }

/-! ## Lemmas on the library functions -/

theorem Join_go_eq (sep : Str) (rest : List Str) (acc : Str) :
    rest.foldl (fun b s => b ++ sep ++ s) acc = String.intercalate.go acc sep rest := by
  induction rest generalizing acc with
  | nil => simp [String.intercalate.go]
  | cons a as ih => simp [String.intercalate.go, ih]

theorem Join_eq_intercalate (elems : List Str) (sep : Str) :
    Join elems sep = String.intercalate sep elems := by
  match elems with
  | [] => rfl
  | [e] => simp [Join, String.intercalate, String.intercalate.go]
  | e :: f :: rest =>
    simp only [Join, String.intercalate]
    exact Join_go_eq sep (f :: rest) e

theorem Join_snoc (elems : List Str) (b sep : Str) :
    Join (elems ++ [b]) sep = if elems = [] then b else Join elems sep ++ sep ++ b := by
  match elems with
  | [] => simp [Join]
  | [e] => simp [Join]
  | e :: f :: rest =>
    simp [Join, List.foldl_append]

theorem Join_length (elems : List Str) (sep : Str) :
    (Join elems sep).length
      = (elems.map String.length).sum + (elems.length - 1) * sep.length := by
  induction elems using List.reverseRecOn with
  | nil => simp [Join]
  | append_singleton l b ih =>
    rw [Join_snoc]
    by_cases h : l = []
    · subst h; simp
    · have hpos : 1 ≤ l.length := List.length_pos.mpr h
      obtain ⟨k, hk⟩ : ∃ k, l.length = k + 1 := ⟨l.length - 1, by omega⟩
      simp only [h, if_false, String.length_append, ih, List.map_append, List.sum_append,
        List.length_append, List.map_cons, List.map_nil, List.sum_cons, List.sum_nil,
        List.length_cons, List.length_nil, hk]
      simp only [Nat.add_sub_cancel, Nat.add_mul]
      omega

theorem Repeat_eq_join (s : Str) (k : Nat) :
    Repeat s k = String.join (List.replicate k s) := by
  induction k with
  | zero => rfl
  | succ n ih =>
    rw [Repeat, ih, List.replicate_succ']
    simp only [String.join, List.foldl_append, List.foldl_cons, List.foldl_nil]

theorem Repeat_hash (k : Nat) : Repeat "#" k = String.mk (List.replicate k '#') := by
  induction k with
  | zero => rfl
  | succ n ih =>
    rw [Repeat, ih, List.replicate_succ']
    apply String.ext
    simp

theorem toDigitsCore_digits (fuel n : Nat) (ds : List Char) (hn : 0 < n) (hf : n < fuel) :
    Nat.toDigitsCore 10 fuel n ds = ((Nat.digits 10 n).reverse.map Nat.digitChar) ++ ds := by
  induction fuel generalizing n ds with
  | zero => omega
  | succ f ih =>
    rw [Nat.digits_def' (by decide) hn]
    simp only [Nat.toDigitsCore]
    by_cases h0 : n / 10 = 0
    · simp [h0]
    · have hlt : n / 10 < f := by omega
      simp only [h0, if_false]
      rw [ih (n / 10) _ (Nat.pos_of_ne_zero h0) hlt]
      simp

-- The text `%d` gives for a positive number: its base-10 digits, most
-- significant first.
theorem repr_succ_digits (n : Nat) :
    Nat.repr (n + 1) = String.mk (((Nat.digits 10 (n + 1)).reverse).map Nat.digitChar) := by
  simp only [Nat.repr, Nat.toDigits, List.asString]
  rw [toDigitsCore_digits (n + 1 + 1) (n + 1) [] (by omega) (by omega)]
  simp

theorem getElem?_append_offset (a b : List Str) (i : Nat) :
    (a ++ b)[a.length + i]? = b[i]? := by
  rw [List.getElem?_append_right (Nat.le_add_right _ _)]
  simp

/-! ## The loops of the list operations in closed form -/

theorem BulletList_eq (m : Markdown) (text : List Str) :
    m.BulletList text = { m with body := m.body ++ text.map (fun v => "- " ++ v) } := by
  unfold Markdown.BulletList
  induction text generalizing m with
  | nil => simp
  | cons v rest ih => simp [List.foldl_cons, ih]

theorem OrderedList_loop (k : Nat) (m : Markdown) (text : List Str) :
    (text.enumFrom k).foldl
        (fun m iv => { m with body := m.body ++ [Nat.repr (iv.1 + 1) ++ ". " ++ iv.2] }) m
      = { m with body := m.body
            ++ (text.enumFrom k).map (fun iv => Nat.repr (iv.1 + 1) ++ ". " ++ iv.2) } := by
  induction text generalizing m k with
  | nil => simp
  | cons v rest ih => simp [List.enumFrom_cons, List.foldl_cons, ih]

theorem OrderedList_eq (m : Markdown) (text : List Str) :
    m.OrderedList text
      = { m with body := m.body
            ++ text.enum.map (fun iv => Nat.repr (iv.1 + 1) ++ ". " ++ iv.2) } :=
  OrderedList_loop 0 m text

theorem TaskList_eq (m : Markdown) (set : List TaskListSet) :
    m.TaskList set
      = { m with body := m.body
            ++ set.map (fun v => if v.Checked then "- [x] " ++ v.Text else "- [ ] " ++ v.Text) } := by
  unfold Markdown.TaskList
  induction set generalizing m with
  | nil => simp
  | cons v rest ih =>
    cases hv : v.Checked <;> simp [List.foldl_cons, ih, hv]

theorem apply_body_extends (GOOS : Str) (m : Markdown) (op : Op) :
    m.body <+: (m.apply GOOS op).body := by
  cases op with
  | Paragraph text => exact List.prefix_append _ _
  | H1 text => exact List.prefix_append _ _
  | H2 text => exact List.prefix_append _ _
  | H3 text => exact List.prefix_append _ _
  | H4 text => exact List.prefix_append _ _
  | H5 text => exact List.prefix_append _ _
  | H6 text => exact List.prefix_append _ _
  | BulletList text => simp only [Markdown.apply, BulletList_eq]; exact List.prefix_append _ _
  | OrderedList text => simp only [Markdown.apply, OrderedList_eq]; exact List.prefix_append _ _
  | Blockquote text => exact List.prefix_append _ _
  | CodeBlock text lang => exact List.prefix_append _ _
  | Rule => exact List.prefix_append _ _
  | Table t => exact List.prefix_append _ _
  | TaskList set => simp only [Markdown.apply, TaskList_eq]; exact List.prefix_append _ _

theorem run_body_extends (GOOS : Str) (m : Markdown) (ops : List Op) :
    m.body <+: (m.run GOOS ops).body := by
  unfold Markdown.run
  induction ops generalizing m with
  | nil => exact List.prefix_refl _
  | cons op rest ih =>
    exact (apply_body_extends GOOS m op).trans (ih (m.apply GOOS op))

theorem TableSet_rows_loop (rows : List (List Str)) (result : List Str) :
    rows.foldl (fun result row => result ++ ["| " ++ Join row " | " ++ " |"]) result
      = result ++ rows.map (fun row => "| " ++ Join row " | " ++ " |") := by
  induction rows generalizing result with
  | nil => simp
  | cons row rest ih => simp [List.foldl_cons, ih]

/-! ## Rendering -/

/-- C1: for every document, String() returns the document's blocks, in
insertion order, joined by the line separator LineFeed(): the text is the
intercalation of the separator between the blocks; the empty document renders
to the empty string; a document of one block renders to that block; appending
a block to a non-empty document extends the text by one separator and the
block, so no separator leads or trails and the length of the text is the sum
of the block lengths plus one separator length per gap between blocks. -/
theorem String_joins_blocks (m : Markdown) (GOOS : Str) :
    (m.String GOOS).1 = String.intercalate (LineFeed GOOS) m.body
    ∧ ((NewMarkdown m.dest).String GOOS).1 = ""
    ∧ (∀ b : Str,
        (Markdown.String { m with body := m.body ++ [b] } GOOS).1
          = if m.body = [] then b else (m.String GOOS).1 ++ LineFeed GOOS ++ b)
    ∧ ((m.String GOOS).1).length
        = (m.body.map String.length).sum + (m.body.length - 1) * (LineFeed GOOS).length := by
  refine ⟨?_, ?_, ?_, ?_⟩
  · exact Join_eq_intercalate m.body (LineFeed GOOS)
  · rfl
  · intro b
    exact Join_snoc m.body b (LineFeed GOOS)
  · exact Join_length m.body (LineFeed GOOS)

/-- C2: on every document reached from a new document by any sequence of
append operations, String() called twice in a row returns the same text both
times, and each call leaves the receiver (its block sequence, its internal
error and its sink) as it was. -/
theorem String_twice_same (w : Writer) (GOOS : Str) (ops : List Op) :
    ((((NewMarkdown w).run GOOS ops).String GOOS).2.String GOOS).1
        = (((NewMarkdown w).run GOOS ops).String GOOS).1
    ∧ (((NewMarkdown w).run GOOS ops).String GOOS).2.body = ((NewMarkdown w).run GOOS ops).body
    ∧ (((NewMarkdown w).run GOOS ops).String GOOS).2.err = ((NewMarkdown w).run GOOS ops).err
    ∧ ((((NewMarkdown w).run GOOS ops).String GOOS).2.String GOOS).2
        = (NewMarkdown w).run GOOS ops := by
  simp [Markdown.String]

/-! ## Append operations -/

/-- C3: every append operation (Paragraph, H1..H6, BulletList, OrderedList,
Blockquote, CodeBlock, Rule, Table, TaskList) is append-only: the block
sequence before the operation is a prefix of the block sequence after it, for
every document; the same holds across any sequence of such operations. -/
theorem append_only (GOOS : Str) (m : Markdown) :
    (∀ text, m.body <+: (m.Paragraph text).body)
    ∧ (∀ text, m.body <+: (m.H1 text).body)
    ∧ (∀ text, m.body <+: (m.H2 text).body)
    ∧ (∀ text, m.body <+: (m.H3 text).body)
    ∧ (∀ text, m.body <+: (m.H4 text).body)
    ∧ (∀ text, m.body <+: (m.H5 text).body)
    ∧ (∀ text, m.body <+: (m.H6 text).body)
    ∧ (∀ text, m.body <+: (m.BulletList text).body)
    ∧ (∀ text, m.body <+: (m.OrderedList text).body)
    ∧ (∀ text, m.body <+: (m.Blockquote text).body)
    ∧ (∀ text lang, m.body <+: (m.CodeBlock GOOS text lang).body)
    ∧ m.body <+: m.Rule.body
    ∧ (∀ t, m.body <+: (m.Table GOOS t).body)
    ∧ (∀ set, m.body <+: (m.TaskList set).body)
    ∧ (∀ ops, m.body <+: (m.run GOOS ops).body) := by
  refine ⟨?_, ?_, ?_, ?_, ?_, ?_, ?_, ?_, ?_, ?_, ?_, ?_, ?_, ?_, ?_⟩
  · intro text; exact apply_body_extends GOOS m (.Paragraph text)
  · intro text; exact apply_body_extends GOOS m (.H1 text)
  · intro text; exact apply_body_extends GOOS m (.H2 text)
  · intro text; exact apply_body_extends GOOS m (.H3 text)
  · intro text; exact apply_body_extends GOOS m (.H4 text)
  · intro text; exact apply_body_extends GOOS m (.H5 text)
  · intro text; exact apply_body_extends GOOS m (.H6 text)
  · intro text; exact apply_body_extends GOOS m (.BulletList text)
  · intro text; exact apply_body_extends GOOS m (.OrderedList text)
  · intro text; exact apply_body_extends GOOS m (.Blockquote text)
  · intro text lang; exact apply_body_extends GOOS m (.CodeBlock text lang)
  · exact apply_body_extends GOOS m .Rule
  · intro t; exact apply_body_extends GOOS m (.Table t)
  · intro set; exact apply_body_extends GOOS m (.TaskList set)
  · intro ops; exact run_body_extends GOOS m ops

/-- C4: for every text, the header operation of level k appends exactly one
block equal to k characters '#', one space, then the text: this holds of
`header` at every level, H1..H6 are `header` at the levels 1..6, and on an
empty document String() after Hk returns exactly that block. -/
theorem header_block (m : Markdown) (w : Writer) (GOOS text : Str) :
    (∀ k : Nat, (m.header text k).body
        = m.body ++ [String.mk (List.replicate k '#') ++ " " ++ text])
    ∧ (m.H1 text).body = m.body ++ ["#" ++ " " ++ text]
    ∧ (m.H2 text).body = m.body ++ ["##" ++ " " ++ text]
    ∧ (m.H3 text).body = m.body ++ ["###" ++ " " ++ text]
    ∧ (m.H4 text).body = m.body ++ ["####" ++ " " ++ text]
    ∧ (m.H5 text).body = m.body ++ ["#####" ++ " " ++ text]
    ∧ (m.H6 text).body = m.body ++ ["######" ++ " " ++ text]
    ∧ (((NewMarkdown w).H1 text).String GOOS).1 = "#" ++ " " ++ text
    ∧ (((NewMarkdown w).H2 text).String GOOS).1 = "##" ++ " " ++ text
    ∧ (((NewMarkdown w).H3 text).String GOOS).1 = "###" ++ " " ++ text
    ∧ (((NewMarkdown w).H4 text).String GOOS).1 = "####" ++ " " ++ text
    ∧ (((NewMarkdown w).H5 text).String GOOS).1 = "#####" ++ " " ++ text
    ∧ (((NewMarkdown w).H6 text).String GOOS).1 = "######" ++ " " ++ text := by
  refine ⟨?_, rfl, rfl, rfl, rfl, rfl, rfl, rfl, rfl, rfl, rfl, rfl, rfl⟩
  intro k
  simp only [Markdown.header, Repeat_hash]

/-- C5: for every list of N texts, BulletList appends exactly N blocks, one
per item and in input order, the i-th being "- " followed by the i-th text;
the blocks already in the document stay in front of them. -/
theorem BulletList_blocks (m : Markdown) (text : List Str) :
    (m.BulletList text).body = m.body ++ text.map (fun v => "- " ++ v)
    ∧ (m.BulletList text).body.length = m.body.length + text.length
    ∧ (∀ i : Nat, (m.BulletList text).body[m.body.length + i]?
        = (text[i]?).map (fun v => "- " ++ v)) := by
  rw [BulletList_eq]
  refine ⟨rfl, by simp, ?_⟩
  intro i
  simp only [getElem?_append_offset, List.getElem?_map]

/-- C6: for every list of N texts, OrderedList appends exactly N blocks behind
the blocks the document already holds, in input order, the block of the item
at 0-based position i being the decimal numeral of i+1 (its base-10 digits,
most significant first), a period, a space, then the item; the numbering
starts at 1 in every call, whatever blocks the document already holds. Twelve
items on a new document give "1. " up to "12. ". -/
theorem OrderedList_blocks (m : Markdown) (w : Writer) (text : List Str) :
    (m.OrderedList text).body.length = m.body.length + text.length
    ∧ (m.OrderedList text).body.take m.body.length = m.body
    ∧ (∀ i : Nat, (m.OrderedList text).body[m.body.length + i]?
        = (text[i]?).map (fun v => Nat.repr (i + 1) ++ ". " ++ v))
    ∧ (∀ i : Nat, Nat.repr (i + 1)
        = String.mk (((Nat.digits 10 (i + 1)).reverse).map Nat.digitChar))
    ∧ ((NewMarkdown w).OrderedList
          ["a", "b", "c", "d", "e", "f", "g", "h", "i", "j", "k", "l"]).body
        = ["1. a", "2. b", "3. c", "4. d", "5. e", "6. f", "7. g", "8. h", "9. i",
           "10. j", "11. k", "12. l"] := by
  refine ⟨?_, ?_, ?_, repr_succ_digits, rfl⟩
  · rw [OrderedList_eq]
    simp [List.enum_length]
  · rw [OrderedList_eq]
    simp
  · intro i
    rw [OrderedList_eq]
    simp only [getElem?_append_offset, List.getElem?_map, List.getElem?_enum, Option.map_map]
    rfl

/-- C7: for every header and every list of data rows, whatever the lengths of
the rows, Table appends exactly one block: the join by the line separator of
2 + (number of rows) lines, which are the header row "| " + cells joined by
" | " + " |", the separator row "|" followed by one "---|" per header column,
and one row per data row in the same pipe-delimited form, in order. For header
["A","B"] and rows [["1","2"]] the lines are "| A | B |", "|---|---|",
"| 1 | 2 |". -/
theorem Table_block (m : Markdown) (GOOS : Str) (t : TableSet) :
    (m.Table GOOS t).body
        = m.body ++ [String.intercalate (LineFeed GOOS)
            (["| " ++ String.intercalate " | " t.header ++ " |",
              "|" ++ String.join (List.replicate t.header.length "---|")]
              ++ t.rows.map (fun row => "| " ++ String.intercalate " | " row ++ " |"))]
    ∧ (["| " ++ String.intercalate " | " t.header ++ " |",
        "|" ++ String.join (List.replicate t.header.length "---|")]
        ++ t.rows.map (fun row => "| " ++ String.intercalate " | " row ++ " |")).length
        = 2 + t.rows.length
    ∧ (m.Table GOOS { header := ["A", "B"], rows := [["1", "2"]] }).body
        = m.body ++ ["| A | B |" ++ LineFeed GOOS ++ "|---|---|" ++ LineFeed GOOS ++ "| 1 | 2 |"] := by
  refine ⟨?_, ?_, ?_⟩
  · simp only [Markdown.Table, TableSet.String, TableSet_rows_loop]
    simp only [Join_eq_intercalate, Repeat_eq_join, List.nil_append, List.cons_append]
  · simp only [List.length_append, List.length_cons, List.length_nil, List.length_map]
  · rfl

/-- C8: for every text and language tag, CodeBlock appends exactly one block:
the fence of three backticks followed by the language tag, the line separator,
the text unchanged, the line separator, and the closing fence of three
backticks. With text "x" and language "go" the block is the fence and "go",
a line feed, "x", a line feed, the fence (carriage return + line feed on
windows). -/
theorem CodeBlock_block (m : Markdown) (GOOS text lang : Str) :
    (m.CodeBlock GOOS text lang).body
        = m.body ++ ["```" ++ lang ++ LineFeed GOOS ++ text ++ LineFeed GOOS ++ "```"]
    ∧ (m.CodeBlock "linux" "x" "go").body = m.body ++ ["```go\nx\n```"]
    ∧ (m.CodeBlock "windows" "x" "go").body = m.body ++ ["```go\r\nx\r\n```"] := by
  exact ⟨rfl, rfl, rfl⟩

/-- C9: for every list of N task items, TaskList appends exactly N blocks, one
per item and in input order, the block of an item being "- [x] " + its text
when the item is checked and "- [ ] " + its text when it is not; a checked
"done" followed by an unchecked "todo" gives the blocks "- [x] done" and
"- [ ] todo". -/
theorem TaskList_blocks (m : Markdown) (set : List TaskListSet) :
    (m.TaskList set).body.length = m.body.length + set.length
    ∧ (m.TaskList set).body.take m.body.length = m.body
    ∧ (∀ i : Nat, (m.TaskList set).body[m.body.length + i]?
        = (set[i]?).map
            (fun v => if v.Checked = true then "- [x] " ++ v.Text else "- [ ] " ++ v.Text))
    ∧ (m.TaskList [{ Checked := true, Text := "done" }, { Checked := false, Text := "todo" }]).body
        = m.body ++ ["- [x] done", "- [ ] todo"] := by
  refine ⟨?_, ?_, ?_, ?_⟩
  · rw [TaskList_eq]
    simp
  · rw [TaskList_eq]
    simp
  · intro i
    rw [TaskList_eq]
    simp only [getElem?_append_offset, List.getElem?_map]
  · rw [TaskList_eq]
    rfl

/-- C10: the line-break operation LF appends to every document exactly one
block, equal to exactly two space characters; on a new document the block
sequence is then that single block. -/
theorem LF_block (m : Markdown) (w : Writer) :
    m.LF.body = m.body ++ [String.mk [' ', ' ']]
    ∧ m.LF.body.length = m.body.length + 1
    ∧ (NewMarkdown w).LF.body = ["  "] := by
  refine ⟨rfl, ?_, rfl⟩
  simp [Markdown.LF]

/-! ## Lemmas on calls and their effect on the receiver -/

theorem apply_eq_blocks (GOOS : Str) (m : Markdown) (op : Op) :
    m.apply GOOS op = { m with body := m.body ++ op.blocks GOOS } := by
  cases op with
  | Paragraph text => rfl
  | H1 text => rfl
  | H2 text => rfl
  | H3 text => rfl
  | H4 text => rfl
  | H5 text => rfl
  | H6 text => rfl
  | BulletList text => simp only [Markdown.apply, BulletList_eq, Op.blocks]
  | OrderedList text => simp only [Markdown.apply, OrderedList_eq, Op.blocks]
  | Blockquote text => rfl
  | CodeBlock text lang => rfl
  | Rule => rfl
  | Table t => rfl
  | TaskList set => simp only [Markdown.apply, TaskList_eq, Op.blocks]

theorem Build_state (m : Markdown) (GOOS : Str) :
    (m.Build GOOS).2
      = { m with dest := { m.dest with calls := m.dest.calls ++ [(m.String GOOS).1] } } := by
  unfold Markdown.Build
  simp only [Markdown.String, Fprint]
  cases hf : m.dest.fail <;> cases he : m.err <;> rfl

theorem Build_result (m : Markdown) (GOOS : Str) :
    (m.Build GOOS).1
      = match m.dest.fail, m.err with
        | some werr, some e =>
          some (.wrap ("failed to write markdown text: " ++ werr.Error ++ ": " ++ e.Error) werr)
        | some werr, none => some (.leaf ("failed to write markdown text: " ++ werr.Error))
        | none, e => e := by
  unfold Markdown.Build
  simp only [Markdown.String, Fprint]
  cases hf : m.dest.fail <;> cases he : m.err <;> rfl

theorem step_err (GOOS : Str) (m : Markdown) (c : Call) :
    (m.step GOOS c).err = m.err := by
  cases c with
  | append op => simp only [Markdown.step, apply_eq_blocks]
  | String => rfl
  | Build => simp only [Markdown.step, Build_state]
  | Error => rfl

theorem exec_err (GOOS : Str) (m : Markdown) (calls : List Call) :
    (m.exec GOOS calls).err = m.err := by
  unfold Markdown.exec
  induction calls generalizing m with
  | nil => rfl
  | cons c rest ih => rw [List.foldl_cons, ih, step_err]

theorem step_fail (GOOS : Str) (m : Markdown) (c : Call) :
    (m.step GOOS c).dest.fail = m.dest.fail := by
  cases c with
  | append op => simp only [Markdown.step, apply_eq_blocks]
  | String => rfl
  | Build => simp only [Markdown.step, Build_state]
  | Error => rfl

/-! ## Single-block operations and inline helpers -/

/-- C11: for every text, Paragraph appends exactly one block equal to the text
unchanged, Blockquote appends exactly one block equal to "> " followed by the
text, and Rule appends exactly one block equal to "---"; none of them touches
the sink or the internal error. -/
theorem Paragraph_Blockquote_Rule_block (m : Markdown) (text : Str) :
    m.Paragraph text = { m with body := m.body ++ [text] }
    ∧ m.Blockquote text = { m with body := m.body ++ [String.mk ['>', ' '] ++ text] }
    ∧ m.Rule = { m with body := m.body ++ [String.mk ['-', '-', '-']] }
    ∧ (m.Paragraph text).body.length = m.body.length + 1
    ∧ (m.Blockquote text).body.length = m.body.length + 1
    ∧ m.Rule.body.length = m.body.length + 1 := by
  refine ⟨rfl, rfl, rfl, ?_, ?_, ?_⟩
  · simp [Markdown.Paragraph]
  · simp [Markdown.Blockquote]
  · simp [Markdown.Rule]

/-- C12: each inline helper returns its input wrapped in its fixed delimiters,
with no escaping, for every input string: Bold, Italic, BoldItalic, Code,
Highlight, Strikethrough, Subscript, Superscript, Emoji and URL wrap one
input, Link and Image combine two. As characters: the result is the opening
delimiter, the input's characters unchanged, the closing delimiter. -/
theorem inline_helpers (x t u a : Str) :
    (Bold x).data = ['*', '*'] ++ x.data ++ ['*', '*']
    ∧ (Italic x).data = ['*'] ++ x.data ++ ['*']
    ∧ (BoldItalic x).data = ['*', '*', '*'] ++ x.data ++ ['*', '*', '*']
    ∧ (Code x).data = [Char.ofNat 96] ++ x.data ++ [Char.ofNat 96]
    ∧ (Highlight x).data = ['=', '='] ++ x.data ++ ['=', '=']
    ∧ (Strikethrough x).data = ['~', '~'] ++ x.data ++ ['~', '~']
    ∧ (Subscript x).data = ['~'] ++ x.data ++ ['~']
    ∧ (Superscript x).data = ['^'] ++ x.data ++ ['^']
    ∧ (Emoji x).data = [':'] ++ x.data ++ [':']
    ∧ (URL u).data = ['<'] ++ u.data ++ ['>']
    ∧ (Link t u).data = ['['] ++ t.data ++ [']', '('] ++ u.data ++ [')']
    ∧ (Image a u).data = ['!', '['] ++ a.data ++ [']', '('] ++ u.data ++ [')']
    ∧ Bold "x" = "**x**"
    ∧ Link "t" "u" = "[t](u)" := by
  refine ⟨rfl, rfl, rfl, rfl, rfl, rfl, rfl, rfl, rfl, rfl, rfl, rfl, rfl, rfl⟩

/-! ## End-to-end rendering -/

/-- C13: starting from an empty document, H1("Title"), then Paragraph("Body"),
then Rule(), rendered when the line separator is the line feed, yields exactly
the text "# Title\nBody\n---". -/
theorem end_to_end_scenario (w : Writer) (GOOS : Str) (h : LineFeed GOOS = "\n") :
    ((((NewMarkdown w).H1 "Title").Paragraph "Body").Rule.String GOOS).1
      = "# Title\nBody\n---" := by
  simp only [Markdown.String, Markdown.Rule, Markdown.Paragraph, Markdown.H1, Markdown.header,
    NewMarkdown, List.nil_append, List.cons_append, Join, List.foldl_cons, List.foldl_nil, h]
  rfl

theorem end_to_end_scenario_witness :
    LineFeed "linux" = "\n"
    ∧ ((((NewMarkdown sinkOk).H1 "Title").Paragraph "Body").Rule.String "linux").1
        = "# Title\nBody\n---" :=
  ⟨rfl, end_to_end_scenario sinkOk "linux" rfl⟩

/-! ## Build: errors and the write to the sink -/

/-- C14: for every document that carries an internal error and every sink
whose write fails, Build returns an error whose message is
"failed to write markdown text: " + the write error's text + ": " + the
internal error's text, so the message contains both descriptions. -/
theorem Build_reports_both (m : Markdown) (GOOS : Str) (e werr : GoError)
    (he : m.err = some e) (hw : m.dest.fail = some werr) :
    ∃ r : GoError, (m.Build GOOS).1 = some r
      ∧ r.Error = "failed to write markdown text: " ++ werr.Error ++ ": " ++ e.Error
      ∧ werr.Error.data <:+: r.Error.data
      ∧ e.Error.data <:+: r.Error.data := by
  refine ⟨.wrap ("failed to write markdown text: " ++ werr.Error ++ ": " ++ e.Error) werr,
    ?_, rfl, ?_, ?_⟩
  · rw [Build_result, hw, he]
  · exact ⟨"failed to write markdown text: ".data, (": " ++ e.Error).data, by
      simp [GoError.Error, String.data_append]⟩
  · exact ⟨("failed to write markdown text: " ++ werr.Error ++ ": ").data, [], by
      simp [GoError.Error, String.data_append]⟩

theorem Build_reports_both_witness :
    docErrFailing.err = some (.leaf "bad input")
    ∧ docErrFailing.dest.fail = some (.leaf "disk full")
    ∧ ∃ r : GoError, (docErrFailing.Build "linux").1 = some r
        ∧ r.Error = "failed to write markdown text: " ++ (GoError.leaf "disk full").Error
            ++ ": " ++ (GoError.leaf "bad input").Error
        ∧ (GoError.leaf "disk full").Error.data <:+: r.Error.data
        ∧ (GoError.leaf "bad input").Error.data <:+: r.Error.data :=
  ⟨rfl, rfl, Build_reports_both docErrFailing "linux" (.leaf "bad input") (.leaf "disk full")
    rfl rfl⟩

/-- C15: the internal error is sticky: on every document that carries an
internal error, Build returns that error when the write succeeds, and no
append operation, String() call or Build call (nor any sequence of them)
clears or changes the internal error, so Error() returns the same value
afterwards. -/
theorem internal_error_sticky (m : Markdown) (GOOS : Str) (e : GoError)
    (he : m.err = some e) :
    (m.dest.fail = none → (m.Build GOOS).1 = some e)
    ∧ (∀ op : Op, (m.apply GOOS op).Error.1 = some e)
    ∧ (m.String GOOS).2.Error.1 = some e
    ∧ (m.Build GOOS).2.Error.1 = some e
    ∧ (∀ calls : List Call, (m.exec GOOS calls).Error.1 = some e) := by
  refine ⟨?_, ?_, ?_, ?_, ?_⟩
  · intro hw
    rw [Build_result, hw, he]
  · intro op
    simp only [Markdown.Error, apply_eq_blocks, he]
  · simp only [Markdown.Error, Markdown.String, he]
  · simp only [Markdown.Error, Build_state, he]
  · intro calls
    simp only [Markdown.Error, exec_err, he]

theorem internal_error_sticky_witness :
    docErrOk.err = some (.leaf "bad input")
    ∧ docErrOk.dest.fail = none
    ∧ (docErrOk.Build "linux").1 = some (.leaf "bad input")
    ∧ (docErrOk.exec "linux" [.append (.Paragraph "y"), .String, .Build, .append .Rule]).Error.1
        = some (.leaf "bad input") :=
  ⟨rfl, rfl,
   (internal_error_sticky docErrOk "linux" (.leaf "bad input") rfl).1 rfl,
   (internal_error_sticky docErrOk "linux" (.leaf "bad input") rfl).2.2.2.2 _⟩

/-- C16: on a document with no internal error whose sink fails with
"disk full", Build returns an error with the text
"failed to write markdown text: disk full" that has no cause to unwrap (it is
formatted with the verb for the text only), whereas on the same document
carrying an internal error the returned error unwraps to the sink's error. -/
theorem Build_write_failure_not_wrapped :
    docFailing.err = none
    ∧ docFailing.dest.fail = some (.leaf "disk full")
    ∧ (docFailing.Build "linux").1 = some (.leaf "failed to write markdown text: disk full")
    ∧ (docFailing.Build "linux").1.bind GoError.Unwrap = none
    ∧ (docErrFailing.Build "linux").1.bind GoError.Unwrap = some (.leaf "disk full") := by
  exact ⟨rfl, rfl, rfl, rfl, rfl⟩

/-- C17: for every document, one Build invocation performs exactly one write
to the sink, whose payload is exactly String() of the document, whether the
write succeeds or fails, and leaves the block sequence (and the internal
error) of the document unchanged. -/
theorem Build_writes_once (m : Markdown) (GOOS : Str) :
    (m.Build GOOS).2.dest.calls = m.dest.calls ++ [(m.String GOOS).1]
    ∧ (m.Build GOOS).2.dest.calls.length = m.dest.calls.length + 1
    ∧ (m.Build GOOS).2.dest.fail = m.dest.fail
    ∧ (m.Build GOOS).2.body = m.body
    ∧ (m.Build GOOS).2.err = m.err := by
  rw [Build_state]
  refine ⟨rfl, ?_, rfl, rfl, rfl⟩
  simp

/-! ## The line separator -/

/-- C19: LineFeed returns one of exactly two values selected by the host
platform: carriage return + line feed (two characters) exactly when the
platform is "windows", and the line feed alone (one character) on every other
platform. -/
theorem LineFeed_two_values (GOOS : Str) :
    (LineFeed GOOS = "\r\n" ↔ GOOS = "windows")
    ∧ (LineFeed GOOS = "\n" ↔ GOOS ≠ "windows")
    ∧ ("\r\n" : Str).data = [Char.ofNat 13, Char.ofNat 10]
    ∧ ("\n" : Str).data = [Char.ofNat 10]
    ∧ LineFeed "windows" = "\r\n"
    ∧ LineFeed "linux" = "\n"
    ∧ LineFeed "darwin" = "\n" := by
  have hne : ("\n" : Str) ≠ "\r\n" := by decide
  refine ⟨?_, ?_, rfl, rfl, rfl, rfl, rfl⟩
  · unfold LineFeed
    by_cases h : GOOS = "windows"
    · rw [if_pos h]
      exact ⟨fun _ => h, fun _ => rfl⟩
    · rw [if_neg h]
      exact ⟨fun hh => absurd hh hne, fun hh => absurd hh h⟩
  · unfold LineFeed
    by_cases h : GOOS = "windows"
    · rw [if_pos h]
      exact ⟨fun hh => absurd hh.symm hne, fun hh => absurd h hh⟩
    · rw [if_neg h]
      exact ⟨fun _ => h, fun _ => rfl⟩

/-! ## The internal error is never set -/

/-- C20: on every document reached from NewMarkdown by any sequence of the
public append operations, String() calls, Build calls and Error() calls, the
internal error is nil: Error() returns nil, and Build returns an error if and
only if the sink's write fails (and then succeeds with nil otherwise). -/
theorem internal_error_never_set (w : Writer) (GOOS : Str) (calls : List Call) :
    ((NewMarkdown w).exec GOOS calls).err = none
    ∧ ((NewMarkdown w).exec GOOS calls).Error.1 = none
    ∧ ((((NewMarkdown w).exec GOOS calls).Build GOOS).1 ≠ none
        ↔ ((NewMarkdown w).exec GOOS calls).dest.fail ≠ none) := by
  have herr : ((NewMarkdown w).exec GOOS calls).err = none := by
    rw [exec_err]; rfl
  refine ⟨herr, herr, ?_⟩
  rw [Build_result, herr]
  cases hf : ((NewMarkdown w).exec GOOS calls).dest.fail <;> simp

/-! ## Lemmas on the length of a render -/

theorem length_zero_iff (s : Str) : s.length = 0 ↔ s = "" := by
  constructor
  · intro h
    apply String.ext
    exact List.length_eq_zero.mp h
  · intro h
    subst h
    rfl

theorem LineFeed_length_pos (GOOS : Str) : 0 < (LineFeed GOOS).length := by
  unfold LineFeed
  by_cases h : GOOS = "windows"
  · rw [if_pos h]; decide
  · rw [if_neg h]; decide

theorem Join_append_data (old added : List Str) (sep : Str) :
    (Join old sep).data <+: (Join (old ++ added) sep).data := by
  induction added using List.reverseRecOn with
  | nil => simp
  | append_singleton l b ih =>
    rw [← List.append_assoc, Join_snoc]
    by_cases h : old ++ l = []
    · have ho : old = [] := (List.append_eq_nil.mp h).1
      subst ho
      exact ⟨_, List.nil_append _⟩
    · rw [if_neg h]
      exact ih.trans ⟨sep.data ++ b.data, by simp [String.data_append]⟩

theorem Join_length_lt_iff (old added : List Str) (sep : Str) (hs : 0 < sep.length) :
    (Join old sep).length < (Join (old ++ added) sep).length
      ↔ added ≠ [] ∧ ¬(old = [] ∧ added = [""]) := by
  rw [Join_length, Join_length]
  simp only [List.map_append, List.sum_append, List.length_append]
  cases added with
  | nil => simp
  | cons b rest =>
    cases old with
    | nil =>
      simp only [List.map_nil, List.sum_nil, List.length_nil, List.map_cons, List.sum_cons,
        List.length_cons, ne_eq, reduceCtorEq, not_false_eq_true, true_and, List.cons.injEq]
      have hb := length_zero_iff b
      cases rest with
      | nil =>
        simp only [List.map_nil, List.sum_nil, List.length_nil, and_true]
        constructor
        · intro h hb2
          have := hb.mpr hb2
          omega
        · intro h
          have : b.length ≠ 0 := fun h0 => h (hb.mp h0)
          omega
      | cons c rest2 =>
        simp only [List.length_cons, reduceCtorEq, and_false, not_false_eq_true, iff_true]
        simp only [Nat.add_sub_cancel, Nat.add_mul, Nat.zero_add]
        omega
    | cons o os =>
      simp only [List.map_cons, List.sum_cons, List.length_cons, ne_eq, reduceCtorEq,
        not_false_eq_true, false_and, and_self, iff_true]
      have h1 : os.length + 1 - 1 = os.length := by omega
      have h2 : os.length + 1 + (rest.length + 1) - 1 = os.length + rest.length + 1 := by omega
      rw [h1, h2]
      simp only [Nat.add_mul]
      omega

theorem append_ne_empty (x y z : Str) (hy : 0 < y.length) : x ++ y ++ z ≠ "" := by
  intro h
  have := (length_zero_iff _).mpr h
  simp only [String.length_append] at this
  omega

theorem lit_append_ne_empty (x y : Str) (hx : 0 < x.length) : x ++ y ≠ "" := by
  intro h
  have := (length_zero_iff _).mpr h
  simp only [String.length_append] at this
  omega

theorem TableSet_String_ne_empty (t : TableSet) (GOOS : Str) : t.String GOOS ≠ "" := by
  intro h
  have hl := (length_zero_iff _).mpr h
  simp only [TableSet.String, TableSet_rows_loop, Join_length, List.nil_append, List.cons_append,
    List.map_cons, List.sum_cons, String.length_append] at hl
  have h2 : ("| " : Str).length = 2 := rfl
  omega

theorem blocks_eq_empty_block (GOOS : Str) (op : Op) (h : op.blocks GOOS = [""]) :
    op = .Paragraph "" := by
  cases op with
  | Paragraph text =>
    simp only [Op.blocks, List.cons.injEq, and_true] at h
    rw [h]
  | H1 text => exact absurd (List.cons.inj h).1 (append_ne_empty _ " " _ (by decide))
  | H2 text => exact absurd (List.cons.inj h).1 (append_ne_empty _ " " _ (by decide))
  | H3 text => exact absurd (List.cons.inj h).1 (append_ne_empty _ " " _ (by decide))
  | H4 text => exact absurd (List.cons.inj h).1 (append_ne_empty _ " " _ (by decide))
  | H5 text => exact absurd (List.cons.inj h).1 (append_ne_empty _ " " _ (by decide))
  | H6 text => exact absurd (List.cons.inj h).1 (append_ne_empty _ " " _ (by decide))
  | BulletList text =>
    have hm : "" ∈ text.map (fun v => "- " ++ v) := by
      have h2 : text.map (fun v => "- " ++ v) = [""] := h
      rw [h2]; exact List.mem_singleton_self _
    obtain ⟨v, _, hv⟩ := List.mem_map.mp hm
    exact absurd hv (lit_append_ne_empty _ _ (by decide))
  | OrderedList text =>
    have hm : "" ∈ text.enum.map (fun iv => Nat.repr (iv.1 + 1) ++ ". " ++ iv.2) := by
      have h2 : text.enum.map (fun iv => Nat.repr (iv.1 + 1) ++ ". " ++ iv.2) = [""] := h
      rw [h2]; exact List.mem_singleton_self _
    obtain ⟨v, _, hv⟩ := List.mem_map.mp hm
    exact absurd hv (append_ne_empty _ ". " _ (by decide))
  | Blockquote text => exact absurd (List.cons.inj h).1 (lit_append_ne_empty _ _ (by decide))
  | CodeBlock text lang =>
    refine absurd (List.cons.inj h).1 ?_
    intro h0
    have := (length_zero_iff _).mpr h0
    simp only [String.length_append] at this
    have h3 : ("```" : Str).length = 3 := rfl
    omega
  | Rule => exact absurd (List.cons.inj h).1 (by decide)
  | Table t => exact absurd (List.cons.inj h).1 (TableSet_String_ne_empty t GOOS)
  | TaskList set =>
    have hm : "" ∈ set.map
        (fun v => if v.Checked then "- [x] " ++ v.Text else "- [ ] " ++ v.Text) := by
      have h2 : set.map
          (fun v => if v.Checked then "- [x] " ++ v.Text else "- [ ] " ++ v.Text) = [""] := h
      rw [h2]; exact List.mem_singleton_self _
    obtain ⟨v, _, hv⟩ := List.mem_map.mp hm
    cases hc : v.Checked
    · rw [hc] at hv
      exact absurd hv (lit_append_ne_empty _ _ (by decide))
    · rw [hc] at hv
      exact absurd hv (lit_append_ne_empty _ _ (by decide))

theorem blocks_eq_empty_block_iff (GOOS : Str) (op : Op) :
    op.blocks GOOS = [""] ↔ op = .Paragraph "" := by
  constructor
  · exact blocks_eq_empty_block GOOS op
  · intro h
    subst h
    rfl

/-! ## Rendering again after an append -/

-- C18 as stated fails: an append operation given no item leaves the render as
-- it was, and so does Paragraph("") on an empty document.
theorem render_longer_counterexample :
    (((NewMarkdown sinkOk).Paragraph "x").String "linux").1 = "x"
    ∧ (((((NewMarkdown sinkOk).Paragraph "x").String "linux").2.BulletList []).String "linux").1
        = "x"
    ∧ ((NewMarkdown sinkOk).String "linux").1 = ""
    ∧ ((((NewMarkdown sinkOk).String "linux").2.Paragraph "").String "linux").1 = ""
    ∧ ¬ (∀ (m : Markdown) (GOOS : Str) (op : Op),
          (m.String GOOS).1.length < (((m.String GOOS).2.apply GOOS op).String GOOS).1.length) := by
  refine ⟨rfl, rfl, rfl, rfl, ?_⟩
  intro h
  exact absurd (h ((NewMarkdown sinkOk).Paragraph "x") "linux" (.BulletList [])) (by decide)

/-- C18 (amended): a document stays appendable after it has been rendered: for
every document and every append operation, the operation acts on the document
left by String() as on the document before it, the render after the append
starts with the earlier render and is never shorter, and it is strictly longer
exactly when the operation appended at least one block, Paragraph("") on an
empty document excepted. -/
theorem render_after_append (m : Markdown) (GOOS : Str) (op : Op) :
    (m.String GOOS).2.apply GOOS op = m.apply GOOS op
    ∧ (m.String GOOS).1.data <+: ((m.apply GOOS op).String GOOS).1.data
    ∧ (m.String GOOS).1.length ≤ ((m.apply GOOS op).String GOOS).1.length
    ∧ ((m.String GOOS).1.length < ((m.apply GOOS op).String GOOS).1.length
        ↔ m.body.length < (m.apply GOOS op).body.length
          ∧ ¬(m.body = [] ∧ op = .Paragraph "")) := by
  have hp : (m.String GOOS).1.data <+: ((m.apply GOOS op).String GOOS).1.data := by
    simp only [Markdown.String, apply_eq_blocks]
    exact Join_append_data m.body (op.blocks GOOS) (LineFeed GOOS)
  refine ⟨rfl, hp, hp.length_le, ?_⟩
  simp only [Markdown.String, apply_eq_blocks]
  rw [Join_length_lt_iff m.body (op.blocks GOOS) (LineFeed GOOS) (LineFeed_length_pos GOOS),
    blocks_eq_empty_block_iff, List.length_append]
  constructor
  · rintro ⟨h1, h2⟩
    exact ⟨by have := List.length_pos.mpr h1; omega, h2⟩
  · rintro ⟨h1, h2⟩
    refine ⟨?_, h2⟩
    intro h0
    rw [h0] at h1
    simp at h1

end markdown
